import Mathlib

/-!
Verification development for an excerpt of the Kibana repository.

The excerpt contains three source files:

* `x-pack/legacy/plugins/siem/server/lib/detection_engine/routes/rules/find_rules_status_route.ts`
  — the rule-status lookup route (`createFindRulesStatusRoute`);
* `x-pack/plugins/ml/server/routes/annotations.ts` — the three ML
  annotation route handlers (search / upsert / delete);
* an unnamed utility file with `isValidJson`, `isValidInterval` and
  `toAngularJSON` (an inlined `angular.toJson`).

External collaborators (the saved-objects store, the annotation service,
the security plugin, `JSON.parse`) are modelled as parameters of the
handler functions.  Functions of this repository that are referenced by
the excerpt but whose code is outside it (`transformError`,
`convertToSnakeCase`, `wrapError`, `ANNOTATION_USER_UNKNOWN`) are
modelled from the specification and say so in their doc comments.
-/

namespace KibanaExcerpt

/-! ## JavaScript object as an ordered association list

The rule-status handler builds its response with the spread-and-set
pattern `{...accumulated, [id]: entry}`.  On an object whose keys are
unique (which is the case for every object the handler builds, starting
from `{}`) this updates the value in place when the key is present and
appends the new key otherwise. -/

/-- `{...m, [k]: v}`: replace the value of `k` in place when `k` is
already a key of `m`, otherwise append `(k, v)` at the end. -/
def objectSet {α : Type} : List (String × α) → String → α → List (String × α)
  | [], k, v => [(k, v)]
  | p :: ps, k, v => if p.1 == k then (k, v) :: ps else p :: objectSet ps k v

/-- JavaScript property read `m[k]`: the value at the first (for the
objects built here, only) occurrence of the key `k`. -/
def objectGet {α : Type} (m : List (String × α)) (k : String) : Option α :=
  (m.find? (fun p => p.1 == k)).map (fun p => p.2)

/-- The keys of an object, in insertion order. -/
def keysOf {α : Type} (m : List (String × α)) : List String :=
  m.map (fun p => p.1)

theorem objectGet_objectSet_self {α : Type} (m : List (String × α)) (k : String) (v : α) :
    objectGet (objectSet m k v) k = some v := by
  induction m with
  | nil => simp [objectSet, objectGet, List.find?]
  | cons p ps ih =>
    by_cases h : p.1 == k
    · simp [objectSet, objectGet, h, List.find?]
    · simp only [objectSet, h, if_neg]
      simpa [objectGet, List.find?, h] using ih

theorem objectGet_objectSet_ne {α : Type} (m : List (String × α)) (k k' : String) (v : α)
    (h : k' ≠ k) : objectGet (objectSet m k v) k' = objectGet m k' := by
  induction m with
  | nil =>
    simp only [objectSet, objectGet, List.find?]
    have : (k == k') = false := by
      simpa [beq_iff_eq] using fun hk => h hk.symm
    simp [this]
  | cons p ps ih =>
    by_cases hp : p.1 == k
    · have hpk : p.1 = k := by simpa [beq_iff_eq] using hp
      have h1 : (k == k') = false := by
        simpa [beq_iff_eq] using fun hk => h hk.symm
      have h2 : (p.1 == k') = false := by
        simpa [beq_iff_eq, hpk] using fun hk => h hk.symm
      simp [objectSet, objectGet, hp, List.find?, h1, h2]
    · by_cases hq : p.1 == k'
      · simp [objectSet, objectGet, hp, List.find?, hq]
      · simp only [objectSet, hp, if_neg]
        simpa [objectGet, List.find?, hq] using ih

theorem mem_keysOf_objectSet {α : Type} (m : List (String × α)) (k x : String) (v : α) :
    x ∈ keysOf (objectSet m k v) ↔ x = k ∨ x ∈ keysOf m := by
  induction m with
  | nil => simp [objectSet, keysOf]
  | cons p ps ih =>
    cases hp : (p.1 == k) with
    | true =>
      have hpk : p.1 = k := by simpa [beq_iff_eq] using hp
      have hstep : objectSet (p :: ps) k v = (k, v) :: ps := by simp [objectSet, hp]
      rw [hstep]
      simp only [keysOf, List.map_cons, List.mem_cons, hpk]
      tauto
    | false =>
      have hstep : objectSet (p :: ps) k v = p :: objectSet ps k v := by
        simp [objectSet, hp]
      rw [hstep]
      simp only [keysOf, List.map_cons, List.mem_cons] at ih ⊢
      rw [ih]
      tauto

theorem nodup_keysOf_objectSet {α : Type} (m : List (String × α)) (k : String) (v : α)
    (h : (keysOf m).Nodup) : (keysOf (objectSet m k v)).Nodup := by
  induction m with
  | nil => simp [objectSet, keysOf]
  | cons p ps ih =>
    simp only [keysOf, List.map_cons, List.nodup_cons] at h
    cases hp : (p.1 == k) with
    | true =>
      have hpk : p.1 = k := by simpa [beq_iff_eq] using hp
      have hstep : objectSet (p :: ps) k v = (k, v) :: ps := by simp [objectSet, hp]
      rw [hstep]
      simp only [keysOf, List.map_cons, List.nodup_cons]
      exact ⟨by simpa [hpk] using h.1, h.2⟩
    | false =>
      have hstep : objectSet (p :: ps) k v = p :: objectSet ps k v := by
        simp [objectSet, hp]
      rw [hstep]
      simp only [keysOf, List.map_cons, List.nodup_cons]
      refine ⟨?_, ih h.2⟩
      intro hx
      rcases (mem_keysOf_objectSet ps k p.1 v).1 hx with h1 | h1
      · rw [h1] at hp
        simp at hp
      · exact h.1 h1

/-! ## Rule-status lookup route

Embedding of `createFindRulesStatusRoute` from
`find_rules_status_route.ts`.  The saved-objects client is a parameter
(`find`); the alerts client only matters through its presence. -/

/-- An opaque rule execution-status record (`IRuleStatusAttributes`).
The route never inspects it. -/
structure IRuleStatusAttributes where
  payload : Nat
deriving DecidableEq, Repr

/-- One saved object returned by the store; the handler only reads its
`attributes` field. -/
structure SavedObject where
  attributes : IRuleStatusAttributes
deriving DecidableEq, Repr

/-- The result of `savedObjectsClient.find`; the handler only reads
`saved_objects`. -/
structure FindResult where
  saved_objects : List SavedObject
deriving DecidableEq, Repr

/-- The parameters the handler passes to `savedObjectsClient.find`. -/
structure FindParams where
  type : String
  perPage : Nat
  sortField : String
  sortOrder : String
  search : String
  searchFields : List String
deriving DecidableEq, Repr

/-- A failure of the saved-objects store, as consumed by
`transformError`: a message and a status code. -/
structure SavedObjectsError where
  message : String
  statusCode : Nat
deriving DecidableEq, Repr

/-- Result of `transformError`. -/
structure TransformedError where
  message : String
  statusCode : Nat
deriving DecidableEq, Repr

/-- Modelled from the spec: `transformError` (imported from
`../utils`, not part of the excerpt) produces "a propagated error
carrying the external store's failure message and an associated status
code", so on an error that already carries a message and a status code
it passes both through. -/
def transformError (err : SavedObjectsError) : TransformedError :=
  { message := err.message, statusCode := err.statusCode }

/-- Modelled from the spec: `convertToSnakeCase` (imported from
`../utils`, not part of the excerpt) renames the keys of a record to
snake case.  The spec treats `StatusRecord`s as opaque, so the
key-renaming is modelled as the identity on the opaque record; an
absent record stays absent (handled by `Option.map` at the call
sites). -/
def convertToSnakeCase (attributes : IRuleStatusAttributes) : IRuleStatusAttributes :=
  attributes

/-- Modelled from the spec: the saved-object type tag
(`ruleStatusSavedObjectType`, registered outside the excerpt).  Its
exact value is immaterial to every claim; it is only threaded through to
the store. -/
def ruleStatusSavedObjectType : String := "siem-detection-engine-rule-status"

/-- The exact `savedObjectsClient.find` request the handler issues for
one rule id (lines 51–60 of `find_rules_status_route.ts`). -/
def ruleStatusFindParams (id : String) : FindParams :=
  { type := ruleStatusSavedObjectType
    perPage := 6
    sortField := "statusDate"
    sortOrder := "desc"
    search := id
    searchFields := ["alertId"] }

/-- One entry of the response object: `{ current_status, failures }`. -/
structure RuleStatusEntry where
  current_status : Option IRuleStatusAttributes
  failures : List IRuleStatusAttributes
deriving DecidableEq, Repr

/-- One step of the `query.ids.reduce` callback (lines 50–79): fetch
the up-to-6 most recent records for `id`, make position 0 the current
status and positions 1.. the failures, and write the entry into the
accumulated object. -/
def ruleStatusStep (find : FindParams → Except SavedObjectsError FindResult)
    (accumulated : List (String × RuleStatusEntry)) (id : String) :
    Except SavedObjectsError (List (String × RuleStatusEntry)) := do
  let lastFiveErrorsForId ← find (ruleStatusFindParams id)
  let currentStatus :=
    (lastFiveErrorsForId.saved_objects.head?.map SavedObject.attributes).map convertToSnakeCase
  let failures :=
    (lastFiveErrorsForId.saved_objects.drop 1).map
      (fun errorItem => convertToSnakeCase errorItem.attributes)
  pure (objectSet accumulated id { current_status := currentStatus, failures := failures })

/-- The `query.ids.reduce(..., Promise.resolve({}))` aggregation: a
monadic fold over the ids starting from the empty object; a rejection of
any fetch rejects the whole chain. -/
def findRuleStatuses (find : FindParams → Except SavedObjectsError FindResult)
    (ids : List String) : Except SavedObjectsError (List (String × RuleStatusEntry)) :=
  ids.foldlM (ruleStatusStep find) []

/-- The entry the handler commits for `id` (total description; the
`error` branch is never reached when the aggregation succeeds). -/
def ruleStatusEntryFor (find : FindParams → Except SavedObjectsError FindResult)
    (id : String) : RuleStatusEntry :=
  match find (ruleStatusFindParams id) with
  | Except.ok res =>
      { current_status := (res.saved_objects.head?.map SavedObject.attributes).map convertToSnakeCase
        failures := (res.saved_objects.drop 1).map
          (fun errorItem => convertToSnakeCase errorItem.attributes) }
  | Except.error _ => { current_status := none, failures := [] }

/-- The scoped alerts client: the handler only tests it for presence. -/
structure AlertsClient where
  scope : Nat
deriving DecidableEq, Repr

/-- The error body `{ message, status_code }` built in the catch
branch. -/
structure ErrorBody where
  message : String
  status_code : Nat
deriving DecidableEq, Repr

/-- The possible returns of the route handler: the bare
`headers.response().code(404)`, the statuses object, or the error
response with body and code. -/
inductive HandlerResponse where
  | emptyWithCode (code : Nat)
  | ok (statuses : List (String × RuleStatusEntry))
  | error (body : ErrorBody) (code : Nat)
deriving DecidableEq, Repr

/-- The `async handler` of `createFindRulesStatusRoute` (lines 34–90):
404 when the alerts client is absent, otherwise the aggregated statuses
object, with any rejection transformed into a
`{ message, status_code }` response. -/
def findRulesStatusHandler (alertsClient : Option AlertsClient)
    (find : FindParams → Except SavedObjectsError FindResult)
    (ids : List String) : HandlerResponse :=
  match alertsClient with
  | none => HandlerResponse.emptyWithCode 404
  | some _ =>
    match findRuleStatuses find ids with
    | Except.ok statuses => HandlerResponse.ok statuses
    | Except.error err =>
      let error := transformError err
      HandlerResponse.error
        { message := error.message, status_code := error.statusCode }
        error.statusCode

/-! ### Characterization of the aggregation fold -/

theorem ruleStatusStep_ok (find : FindParams → Except SavedObjectsError FindResult)
    (acc : List (String × RuleStatusEntry)) (id : String) (res : FindResult)
    (h : find (ruleStatusFindParams id) = Except.ok res) :
    ruleStatusStep find acc id =
      Except.ok (objectSet acc id (ruleStatusEntryFor find id)) := by
  simp [ruleStatusStep, ruleStatusEntryFor, h, Except.bind]

theorem ruleStatusStep_error (find : FindParams → Except SavedObjectsError FindResult)
    (acc : List (String × RuleStatusEntry)) (id : String) (e : SavedObjectsError)
    (h : find (ruleStatusFindParams id) = Except.error e) :
    ruleStatusStep find acc id = Except.error e := by
  simp [ruleStatusStep, h, Except.bind]

theorem foldlM_ruleStatusStep_ok (find : FindParams → Except SavedObjectsError FindResult) :
    ∀ (ids : List String) (acc m : List (String × RuleStatusEntry)),
    ids.foldlM (ruleStatusStep find) acc = Except.ok m →
    (∀ k, k ∈ ids → ∃ res, find (ruleStatusFindParams k) = Except.ok res) ∧
    (∀ k, objectGet m k =
      if k ∈ ids then some (ruleStatusEntryFor find k) else objectGet acc k) ∧
    (∀ k, k ∈ keysOf m ↔ k ∈ ids ∨ k ∈ keysOf acc) ∧
    ((keysOf acc).Nodup → (keysOf m).Nodup) := by
  intro ids
  induction ids with
  | nil =>
    intro acc m h
    simp only [List.foldlM_nil] at h
    cases h
    refine ⟨by simp, fun k => by simp, fun k => by simp, fun h => h⟩
  | cons id ids ih =>
    intro acc m h
    rw [List.foldlM_cons] at h
    cases hf : find (ruleStatusFindParams id) with
    | error e =>
      rw [ruleStatusStep_error find acc id e hf] at h
      exact Except.noConfusion h
    | ok res =>
      rw [ruleStatusStep_ok find acc id res hf] at h
      set acc1 := objectSet acc id (ruleStatusEntryFor find id) with hacc1
      obtain ⟨ih1, ih2, ih3, ih4⟩ := ih acc1 m h
      refine ⟨?_, ?_, ?_, ?_⟩
      · intro k hk
        rcases List.mem_cons.1 hk with hk | hk
        · exact ⟨res, hk ▸ hf⟩
        · exact ih1 k hk
      · intro k
        rw [ih2 k]
        by_cases hmem : k ∈ ids
        · simp [hmem]
        · by_cases hkid : k = id
          · subst hkid
            rw [if_neg hmem, if_pos (List.mem_cons_self k ids), hacc1]
            exact objectGet_objectSet_self acc k _
          · simp only [hmem, if_false, List.mem_cons]
            rw [objectGet_objectSet_ne acc id k _ hkid]
            simp [hmem, hkid]
      · intro k
        rw [ih3 k, mem_keysOf_objectSet]
        simp only [List.mem_cons]
        tauto
      · intro hnd
        exact ih4 (nodup_keysOf_objectSet acc id _ hnd)

theorem foldlM_ruleStatusStep_error (find : FindParams → Except SavedObjectsError FindResult) :
    ∀ (ids : List String) (acc : List (String × RuleStatusEntry)),
    (∃ id, id ∈ ids ∧ ∃ e, find (ruleStatusFindParams id) = Except.error e) →
    ∃ e', (∃ id', id' ∈ ids ∧ find (ruleStatusFindParams id') = Except.error e') ∧
      ids.foldlM (ruleStatusStep find) acc = Except.error e' := by
  intro ids
  induction ids with
  | nil =>
    intro acc h
    obtain ⟨id, hmem, _⟩ := h
    exact absurd hmem (List.not_mem_nil id)
  | cons id ids ih =>
    intro acc h
    rw [List.foldlM_cons]
    cases hf : find (ruleStatusFindParams id) with
    | error e =>
      refine ⟨e, ⟨id, List.mem_cons_self id ids, hf⟩, ?_⟩
      rw [ruleStatusStep_error find acc id e hf]
      rfl
    | ok res =>
      obtain ⟨id0, hmem0, e0, hfail0⟩ := h
      have hmem0' : id0 ∈ ids := by
        rcases List.mem_cons.1 hmem0 with h0 | h0
        · rw [h0, hf] at hfail0
          cases hfail0
        · exact h0
      rw [ruleStatusStep_ok find acc id res hf]
      obtain ⟨e', ⟨id', hmem', hfail'⟩, hrun⟩ :=
        ih (objectSet acc id (ruleStatusEntryFor find id)) ⟨id0, hmem0', e0, hfail0⟩
      exact ⟨e', ⟨id', List.mem_cons_of_mem id hmem', hfail'⟩, hrun⟩

/-! ### Claims C1–C4 and C8 (rule-status route) -/

/-- C1: for an id whose fetch returns a non-empty descending-recency
list, the handler requests at most 6 records sorted descending by
`statusDate`, makes the record at position 0 the entry's current
status, and makes the records at positions 1..5 the entry's failures in
the same order (at most 5 of them when the store honours `perPage`). -/
theorem claim_C1_top6_partition (find : FindParams → Except SavedObjectsError FindResult)
    (ids : List String) (id : String) (client : AlertsClient)
    (statuses : List (String × RuleStatusEntry)) (res : FindResult)
    (hrun : findRulesStatusHandler (some client) find ids = HandlerResponse.ok statuses)
    (hmem : id ∈ ids)
    (hfind : find (ruleStatusFindParams id) = Except.ok res)
    (hne : res.saved_objects ≠ []) :
    (ruleStatusFindParams id).perPage = 6 ∧
    (ruleStatusFindParams id).sortField = "statusDate" ∧
    (ruleStatusFindParams id).sortOrder = "desc" ∧
    (∃ first, res.saved_objects.head? = some first ∧
      objectGet statuses id = some
        { current_status := some (convertToSnakeCase first.attributes)
          failures := (res.saved_objects.drop 1).map
            (fun errorItem => convertToSnakeCase errorItem.attributes) }) ∧
    (res.saved_objects.length ≤ 6 →
      ((res.saved_objects.drop 1).map
        (fun errorItem => convertToSnakeCase errorItem.attributes)).length ≤ 5) := by
  have hagg : findRuleStatuses find ids = Except.ok statuses := by
    unfold findRulesStatusHandler at hrun
    cases hr : findRuleStatuses find ids with
    | ok s => rw [hr] at hrun; cases hrun; rfl
    | error e => rw [hr] at hrun; cases hrun
  obtain ⟨_, h2, _, _⟩ := foldlM_ruleStatusStep_ok find ids [] statuses hagg
  refine ⟨rfl, rfl, rfl, ?_, ?_⟩
  · cases hso : res.saved_objects with
    | nil => exact absurd hso hne
    | cons first rest =>
      refine ⟨first, by simp, ?_⟩
      have := h2 id
      rw [if_pos hmem] at this
      rw [this]
      simp [ruleStatusEntryFor, hfind, hso]
  · intro hlen
    have : (res.saved_objects.drop 1).length ≤ 5 := by
      rw [List.length_drop]
      omega
    simpa using this

/-- C2: an id whose fetch returns zero records still gets an entry, with
an absent current status and an empty failures list. -/
theorem claim_C2_empty_fetch (find : FindParams → Except SavedObjectsError FindResult)
    (ids : List String) (id : String) (client : AlertsClient)
    (statuses : List (String × RuleStatusEntry)) (res : FindResult)
    (hrun : findRulesStatusHandler (some client) find ids = HandlerResponse.ok statuses)
    (hmem : id ∈ ids)
    (hfind : find (ruleStatusFindParams id) = Except.ok res)
    (hempty : res.saved_objects = []) :
    objectGet statuses id = some { current_status := none, failures := [] } := by
  have hagg : findRuleStatuses find ids = Except.ok statuses := by
    unfold findRulesStatusHandler at hrun
    cases hr : findRuleStatuses find ids with
    | ok s => rw [hr] at hrun; cases hrun; rfl
    | error e => rw [hr] at hrun; cases hrun
  obtain ⟨_, h2, _, _⟩ := foldlM_ruleStatusStep_ok find ids [] statuses hagg
  have := h2 id
  rw [if_pos hmem] at this
  rw [this]
  simp [ruleStatusEntryFor, hfind, hempty]

/-- C3: for every id list (duplicates allowed) and every succeeding
store, the key set of the result is exactly the set of distinct input
ids — one entry per distinct id, no extra keys — and the entry stored
under a duplicated id is the one computed from its (deterministic)
fetch, i.e. the value the last occurrence wrote. -/
theorem claim_C3_keys_exact (find : FindParams → Except SavedObjectsError FindResult)
    (ids : List String) (client : AlertsClient)
    (statuses : List (String × RuleStatusEntry))
    (hrun : findRulesStatusHandler (some client) find ids = HandlerResponse.ok statuses) :
    (∀ k, k ∈ keysOf statuses ↔ k ∈ ids) ∧
    (keysOf statuses).Nodup ∧
    (∀ id, id ∈ ids → objectGet statuses id = some (ruleStatusEntryFor find id)) := by
  have hagg : findRuleStatuses find ids = Except.ok statuses := by
    unfold findRulesStatusHandler at hrun
    cases hr : findRuleStatuses find ids with
    | ok s => rw [hr] at hrun; cases hrun; rfl
    | error e => rw [hr] at hrun; cases hrun
  obtain ⟨_, h2, h3, h4⟩ := foldlM_ruleStatusStep_ok find ids [] statuses hagg
  refine ⟨fun k => ?_, h4 (by simp [keysOf]), fun id hmem => ?_⟩
  · rw [h3 k]
    simp [keysOf]
  · have := h2 id
    rw [if_pos hmem] at this
    exact this

/-- C4: if the store fetch fails for any one id, the whole operation
fails: no statuses object is returned and the response is an error of
shape `{ message, status_code }` taken from the (first) delegate
failure that propagated. -/
theorem claim_C4_all_or_nothing (find : FindParams → Except SavedObjectsError FindResult)
    (ids : List String) (id : String) (e : SavedObjectsError) (client : AlertsClient)
    (hmem : id ∈ ids)
    (hfail : find (ruleStatusFindParams id) = Except.error e) :
    ∃ e', (∃ id', id' ∈ ids ∧ find (ruleStatusFindParams id') = Except.error e') ∧
      findRulesStatusHandler (some client) find ids =
        HandlerResponse.error
          { message := (transformError e').message
            status_code := (transformError e').statusCode }
          (transformError e').statusCode ∧
      (∀ statuses, findRulesStatusHandler (some client) find ids ≠
        HandlerResponse.ok statuses) := by
  obtain ⟨e', hwit, hrun⟩ :=
    foldlM_ruleStatusStep_error find ids [] ⟨id, hmem, e, hfail⟩
  refine ⟨e', hwit, ?_, ?_⟩
  · unfold findRulesStatusHandler findRuleStatuses
    rw [hrun]
  · intro statuses hcontra
    unfold findRulesStatusHandler findRuleStatuses at hcontra
    rw [hrun] at hcontra
    cases hcontra

/-- C8: when the scoped alerts client is absent the handler responds
with a bare 404, for every store and every id list — in particular the
outcome does not depend on the store (no fetch is performed) and it is
not a statuses object. -/
theorem claim_C8_missing_alerts_client :
    ∀ (find : FindParams → Except SavedObjectsError FindResult) (ids : List String),
    findRulesStatusHandler none find ids = HandlerResponse.emptyWithCode 404 := by
  intro find ids
  rfl

instance {ε α : Type} [DecidableEq ε] [DecidableEq α] : DecidableEq (Except ε α) := fun x y =>
  match x, y with
  | Except.ok a, Except.ok b =>
    if h : a = b then isTrue (by rw [h]) else isFalse (fun hc => h (Except.ok.inj hc))
  | Except.ok _, Except.error _ => isFalse (fun hc => Except.noConfusion hc)
  | Except.error _, Except.ok _ => isFalse (fun hc => Except.noConfusion hc)
  | Except.error e, Except.error f =>
    if h : e = f then isTrue (by rw [h]) else isFalse (fun hc => h (Except.error.inj hc))

/-! ### Concrete fixtures and witnesses for C1–C4

The fixture reproduces the spec's concrete scenario: the store holds
three records for `rule-1` (newest first) and none for `rule-2`. -/

/-- A store with 3 records for `rule-1` (payloads 10, 9, 8, newest
first) and none for any other id. -/
def statusFixtureFind : FindParams → Except SavedObjectsError FindResult := fun p =>
  if p.search == "rule-1" then
    Except.ok { saved_objects :=
      [{ attributes := { payload := 10 } },
       { attributes := { payload := 9 } },
       { attributes := { payload := 8 } }] }
  else
    Except.ok { saved_objects := [] }

/-- The response object the handler builds for the fixture store on
`["rule-1", "rule-2"]`. -/
def statusFixtureResult : List (String × RuleStatusEntry) :=
  [("rule-1", { current_status := some { payload := 10 }
                failures := [{ payload := 9 }, { payload := 8 }] }),
   ("rule-2", { current_status := none, failures := [] })]

/-- A store that fails for `rule-2` with a concrete message and status
code and succeeds (with no records) for every other id. -/
def statusFailingFind : FindParams → Except SavedObjectsError FindResult := fun p =>
  if p.search == "rule-2" then
    Except.error { message := "forbidden", statusCode := 403 }
  else
    Except.ok { saved_objects := [] }

theorem claim_C1_top6_partition_witness :
    (findRulesStatusHandler (some { scope := 0 }) statusFixtureFind ["rule-1", "rule-2"] =
        HandlerResponse.ok statusFixtureResult ∧
      "rule-1" ∈ ["rule-1", "rule-2"] ∧
      statusFixtureFind (ruleStatusFindParams "rule-1") =
        Except.ok { saved_objects :=
          [{ attributes := { payload := 10 } },
           { attributes := { payload := 9 } },
           { attributes := { payload := 8 } }] } ∧
      ({ saved_objects :=
          [{ attributes := { payload := 10 } },
           { attributes := { payload := 9 } },
           { attributes := { payload := 8 } }] } : FindResult).saved_objects ≠ []) ∧
    ((ruleStatusFindParams "rule-1").perPage = 6 ∧
      (ruleStatusFindParams "rule-1").sortField = "statusDate" ∧
      (ruleStatusFindParams "rule-1").sortOrder = "desc" ∧
      (∃ first,
        ({ saved_objects :=
            [{ attributes := { payload := 10 } },
             { attributes := { payload := 9 } },
             { attributes := { payload := 8 } }] } : FindResult).saved_objects.head? =
          some first ∧
        objectGet statusFixtureResult "rule-1" = some
          { current_status := some (convertToSnakeCase first.attributes)
            failures :=
              (({ saved_objects :=
                  [{ attributes := { payload := 10 } },
                   { attributes := { payload := 9 } },
                   { attributes := { payload := 8 } }] } : FindResult).saved_objects.drop 1).map
                (fun errorItem => convertToSnakeCase errorItem.attributes) }) ∧
      (({ saved_objects :=
          [{ attributes := { payload := 10 } },
           { attributes := { payload := 9 } },
           { attributes := { payload := 8 } }] } : FindResult).saved_objects.length ≤ 6 →
        ((({ saved_objects :=
            [{ attributes := { payload := 10 } },
             { attributes := { payload := 9 } },
             { attributes := { payload := 8 } }] } : FindResult).saved_objects.drop 1).map
          (fun errorItem => convertToSnakeCase errorItem.attributes)).length ≤ 5)) :=
  ⟨⟨by decide, by decide, by decide, by decide⟩,
    claim_C1_top6_partition statusFixtureFind ["rule-1", "rule-2"] "rule-1"
      { scope := 0 } statusFixtureResult
      { saved_objects :=
        [{ attributes := { payload := 10 } },
         { attributes := { payload := 9 } },
         { attributes := { payload := 8 } }] }
      (by decide) (by decide) (by decide) (by decide)⟩

theorem claim_C2_empty_fetch_witness :
    (findRulesStatusHandler (some { scope := 0 }) statusFixtureFind ["rule-1", "rule-2"] =
        HandlerResponse.ok statusFixtureResult ∧
      "rule-2" ∈ ["rule-1", "rule-2"] ∧
      statusFixtureFind (ruleStatusFindParams "rule-2") =
        Except.ok { saved_objects := [] } ∧
      ({ saved_objects := [] } : FindResult).saved_objects = []) ∧
    objectGet statusFixtureResult "rule-2" =
      some { current_status := none, failures := [] } :=
  ⟨⟨by decide, by decide, by decide, by decide⟩,
    claim_C2_empty_fetch statusFixtureFind ["rule-1", "rule-2"] "rule-2"
      { scope := 0 } statusFixtureResult { saved_objects := [] }
      (by decide) (by decide) (by decide) (by decide)⟩

theorem claim_C3_keys_exact_witness :
    (findRulesStatusHandler (some { scope := 0 }) statusFixtureFind
        ["rule-1", "rule-2", "rule-1"] =
      HandlerResponse.ok
        [("rule-1", { current_status := some { payload := 10 }
                      failures := [{ payload := 9 }, { payload := 8 }] }),
         ("rule-2", { current_status := none, failures := [] })]) ∧
    ((∀ k, k ∈ keysOf
        [("rule-1", { current_status := some { payload := 10 }
                      failures := [{ payload := 9 }, { payload := 8 }] }),
         ("rule-2", ({ current_status := none, failures := [] } : RuleStatusEntry))] ↔
        k ∈ ["rule-1", "rule-2", "rule-1"]) ∧
      (keysOf
        [("rule-1", { current_status := some { payload := 10 }
                      failures := [{ payload := 9 }, { payload := 8 }] }),
         ("rule-2", ({ current_status := none, failures := [] } : RuleStatusEntry))]).Nodup ∧
      (∀ id, id ∈ ["rule-1", "rule-2", "rule-1"] →
        objectGet
          [("rule-1", { current_status := some { payload := 10 }
                        failures := [{ payload := 9 }, { payload := 8 }] }),
           ("rule-2", ({ current_status := none, failures := [] } : RuleStatusEntry))] id =
          some (ruleStatusEntryFor statusFixtureFind id))) :=
  ⟨by decide,
    claim_C3_keys_exact statusFixtureFind ["rule-1", "rule-2", "rule-1"]
      { scope := 0 } _ (by decide)⟩

theorem claim_C4_all_or_nothing_witness :
    ("rule-2" ∈ ["rule-1", "rule-2"] ∧
      statusFailingFind (ruleStatusFindParams "rule-2") =
        Except.error { message := "forbidden", statusCode := 403 }) ∧
    (∃ e', (∃ id', id' ∈ ["rule-1", "rule-2"] ∧
        statusFailingFind (ruleStatusFindParams id') = Except.error e') ∧
      findRulesStatusHandler (some { scope := 0 }) statusFailingFind ["rule-1", "rule-2"] =
        HandlerResponse.error
          { message := (transformError e').message
            status_code := (transformError e').statusCode }
          (transformError e').statusCode ∧
      (∀ statuses,
        findRulesStatusHandler (some { scope := 0 }) statusFailingFind ["rule-1", "rule-2"] ≠
          HandlerResponse.ok statuses)) :=
  ⟨⟨by decide, by decide⟩,
    claim_C4_all_or_nothing statusFailingFind ["rule-1", "rule-2"] "rule-2"
      { message := "forbidden", statusCode := 403 } { scope := 0 } (by decide) (by decide)⟩

/-! ## ML annotation routes

Embedding of the three handlers registered by `annotationRoutes` in
`x-pack/plugins/ml/server/routes/annotations.ts`.  The license check
wrapper, the schema validation and the annotation service are external;
the per-request collaborators (`isAnnotationsFeatureAvailable` already
awaited, the resolved current user, the three service delegates) are
parameters of the handler functions. -/

/-- A thrown `Boom` error: a message plus the HTTP status code of its
output payload (`Boom.badRequest` carries 400). -/
structure BoomError where
  message : String
  statusCode : Nat
deriving DecidableEq, Repr

/-- Modelled from the spec: `wrapError` (from `../client/error_wrapper`,
not part of the excerpt) is "a generic error-wrapping step" producing "a
uniform client-facing error shape (message + status code)" from the
delegate's failure. -/
structure WrappedError where
  message : String
  statusCode : Nat
deriving DecidableEq, Repr

/-- Modelled from the spec: the generic error-wrapping step carries the
failure's message and status code into the client-facing shape. -/
def wrapError (e : BoomError) : WrappedError :=
  { message := e.message, statusCode := e.statusCode }

/-- The fixed message of the feature-unavailable error (the
`i18n.translate` default message, the two source halves joined). -/
def annotationsFeatureUnavailableErrorMessage : String :=
  "Index and aliases required for the annotations feature have not been" ++
    " created or are not accessible for the current user."

/-- `getAnnotationsFeatureUnavailableErrorMessage()`: the fixed
`Boom.badRequest` (status 400) error thrown when the feature is
unavailable. -/
def getAnnotationsFeatureUnavailableErrorMessage : BoomError :=
  { message := annotationsFeatureUnavailableErrorMessage, statusCode := 400 }

/-- Modelled from the spec: `ANNOTATION_USER_UNKNOWN` (imported from
the ml plugin's common constants, not part of the excerpt) is "a
sentinel \"unknown user\" value"; its exact spelling is immaterial to
the claims, which only compare against the constant itself. -/
def ANNOTATION_USER_UNKNOWN : String := "unknown user"

/-- The authenticated user as returned by
`securityPlugin.authc.getCurrentUser`; the handler only reads
`username`.  `none` models both a `null` return and the `|| {}`
empty-object fallback, whose `username` is `undefined`. -/
structure SecurityUser where
  username : String
deriving DecidableEq, Repr

/-- JavaScript `s || fallback` on a possibly-undefined string: the
fallback is used when the value is absent or empty. -/
def jsStringOr (s : Option String) (fallback : String) : String :=
  match s with
  | some v => if v == "" then fallback else v
  | none => fallback

/-- What a handler returns to the framework: `response.ok({body})` or
`response.customError(wrapError(e))`. -/
inductive RouteResponse (α : Type) where
  | ok (body : α)
  | customError (err : WrappedError)
deriving DecidableEq, Repr

/-- The `POST /api/ml/annotations` handler (lines 64–75): delegate to
`getAnnotations` and wrap any thrown error. -/
def getAnnotationsRouteHandler {ρ α : Type} (getAnnotations : ρ → Except BoomError α)
    (body : ρ) : RouteResponse α :=
  match getAnnotations body with
  | Except.ok resp => RouteResponse.ok resp
  | Except.error e => RouteResponse.customError (wrapError e)

/-- The `PUT /api/ml/annotations/index` handler (lines 95–115): throw
the fixed feature-unavailable error when the flag is false, otherwise
resolve the acting username (sentinel fallback) and delegate to
`indexAnnotation`; wrap any thrown error. -/
def indexAnnotationRouteHandler {β α : Type}
    (isAnnotationsFeatureAvailable : Except BoomError Bool)
    (getCurrentUser : Option SecurityUser)
    ( indexAnnotation : β → String → Except BoomError α)
    (body : β) : RouteResponse α :=
  match (do
      let annotationsFeatureAvailable ← isAnnotationsFeatureAvailable
      if annotationsFeatureAvailable == false then
        throw getAnnotationsFeatureUnavailableErrorMessage
      let user := getCurrentUser
      indexAnnotation body
        (jsStringOr (user.map SecurityUser.username) ANNOTATION_USER_UNKNOWN)
    : Except BoomError α) with
  | Except.ok resp => RouteResponse.ok resp
  | Except.error e => RouteResponse.customError (wrapError e)

/-- The `DELETE /api/ml/annotations/delete/{annotationId}` handler
(lines 134–153): same feature-availability gate, then delegate to
`deleteAnnotation`; wrap any thrown error. -/
def deleteAnnotationRouteHandler {α : Type}
    (isAnnotationsFeatureAvailable : Except BoomError Bool)
    ( deleteAnnotation : String → Except BoomError α)
    (annotationId : String) : RouteResponse α :=
  match (do
      let annotationsFeatureAvailable ← isAnnotationsFeatureAvailable
      if annotationsFeatureAvailable == false then
        throw getAnnotationsFeatureUnavailableErrorMessage
      deleteAnnotation annotationId
    : Except BoomError α) with
  | Except.ok resp => RouteResponse.ok resp
  | Except.error e => RouteResponse.customError (wrapError e)

/-! ### Claims C5–C7 (annotation routes) -/

/-- C5: with the feature-availability flag false, the upsert handler
fails with the fixed feature-unavailable bad-request (400) error for
every annotation content, the delete handler fails identically, and in
both cases the outcome is the same for every service delegate — the
delegate is never invoked. -/
theorem claim_C5_feature_unavailable {β α γ : Type}
    ( indexAnnotation : β → String → Except BoomError α)
    ( deleteAnnotation : String → Except BoomError γ)
    (getCurrentUser : Option SecurityUser) (body : β) (annotationId : String) :
    indexAnnotationRouteHandler (Except.ok false) getCurrentUser indexAnnotation body =
      RouteResponse.customError (wrapError getAnnotationsFeatureUnavailableErrorMessage) ∧
    deleteAnnotationRouteHandler (Except.ok false) deleteAnnotation annotationId =
      RouteResponse.customError (wrapError getAnnotationsFeatureUnavailableErrorMessage) ∧
    wrapError getAnnotationsFeatureUnavailableErrorMessage =
      { message := annotationsFeatureUnavailableErrorMessage, statusCode := 400 } :=
  ⟨rfl, rfl, rfl⟩

/-- C6: when the identity provider resolves no current user, the upsert
handler does not fail on that account: it delegates to the service with
the acting-user field set to the sentinel value, and returns exactly the
(wrapped) delegate outcome. -/
theorem claim_C6_unknown_user {β α : Type}
    ( indexAnnotation : β → String → Except BoomError α) (body : β) :
    indexAnnotationRouteHandler (Except.ok true) none indexAnnotation body =
      (match indexAnnotation body ANNOTATION_USER_UNKNOWN with
        | Except.ok resp => RouteResponse.ok resp
        | Except.error e => RouteResponse.customError (wrapError e)) :=
  rfl

/-- C7: every error returned by a delegate of any of the three
operations is turned into `customError (wrapError e)` — the single
generic wrapping step applied to that very error, with no retry and no
local recovery. -/
theorem claim_C7_error_wrapping {ρ δ β α γ : Type}
    (getAnnotations : ρ → Except BoomError δ)
    ( indexAnnotation : β → String → Except BoomError α)
    ( deleteAnnotation : String → Except BoomError γ)
    (getCurrentUser : Option SecurityUser) (searchBody : ρ) (body : β)
    (annotationId : String) (e1 e2 e3 : BoomError) :
    (getAnnotations searchBody = Except.error e1 →
      getAnnotationsRouteHandler getAnnotations searchBody =
        RouteResponse.customError (wrapError e1)) ∧
    ( indexAnnotation body
        (jsStringOr (getCurrentUser.map SecurityUser.username) ANNOTATION_USER_UNKNOWN) =
          Except.error e2 →
      indexAnnotationRouteHandler (Except.ok true) getCurrentUser indexAnnotation body =
        RouteResponse.customError (wrapError e2)) ∧
    ( deleteAnnotation annotationId = Except.error e3 →
      deleteAnnotationRouteHandler (Except.ok true) deleteAnnotation annotationId =
        RouteResponse.customError (wrapError e3)) := by
  refine ⟨?_, ?_, ?_⟩
  · intro h
    unfold getAnnotationsRouteHandler
    rw [h]
  · intro h
    show (match indexAnnotation body
        (jsStringOr (getCurrentUser.map SecurityUser.username) ANNOTATION_USER_UNKNOWN) with
      | Except.ok resp => RouteResponse.ok resp
      | Except.error e => RouteResponse.customError (wrapError e)) =
      RouteResponse.customError (wrapError e2)
    rw [h]
  · intro h
    show (match deleteAnnotation annotationId with
      | Except.ok resp => RouteResponse.ok resp
      | Except.error e => RouteResponse.customError (wrapError e)) =
      RouteResponse.customError (wrapError e3)
    rw [h]

/-- Delegates that always fail, used to witness C7 at concrete inputs. -/
def failingSearchDelegate : Nat → Except BoomError Nat :=
  fun _ => Except.error { message := "search failed", statusCode := 500 }

/-- Upsert delegate that always fails, for the C7 witness. -/
def failingIndexDelegate : Nat → String → Except BoomError Nat :=
  fun _ _ => Except.error { message := "index failed", statusCode := 503 }

/-- Delete delegate that always fails, for the C7 witness. -/
def failingDeleteDelegate : String → Except BoomError Nat :=
  fun _ => Except.error { message := "delete failed", statusCode := 410 }

theorem claim_C7_error_wrapping_witness :
    (failingSearchDelegate 0 =
        Except.error { message := "search failed", statusCode := 500 } ∧
      failingIndexDelegate 7
          (jsStringOr ((none : Option SecurityUser).map SecurityUser.username)
            ANNOTATION_USER_UNKNOWN) =
        Except.error { message := "index failed", statusCode := 503 } ∧
      failingDeleteDelegate "a1" =
        Except.error { message := "delete failed", statusCode := 410 }) ∧
    (getAnnotationsRouteHandler failingSearchDelegate 0 =
        RouteResponse.customError
          (wrapError { message := "search failed", statusCode := 500 }) ∧
      indexAnnotationRouteHandler (Except.ok true) none failingIndexDelegate 7 =
        RouteResponse.customError
          (wrapError { message := "index failed", statusCode := 503 }) ∧
      deleteAnnotationRouteHandler (Except.ok true) failingDeleteDelegate "a1" =
        RouteResponse.customError
          (wrapError { message := "delete failed", statusCode := 410 })) :=
  ⟨⟨by decide, by decide, by decide⟩,
    ⟨(claim_C7_error_wrapping failingSearchDelegate failingIndexDelegate
        failingDeleteDelegate none 0 7 "a1"
        { message := "search failed", statusCode := 500 }
        { message := "index failed", statusCode := 503 }
        { message := "delete failed", statusCode := 410 }).1 (by decide),
      (claim_C7_error_wrapping failingSearchDelegate failingIndexDelegate
        failingDeleteDelegate none 0 7 "a1"
        { message := "search failed", statusCode := 500 }
        { message := "index failed", statusCode := 503 }
        { message := "delete failed", statusCode := 410 }).2.1 (by decide),
      (claim_C7_error_wrapping failingSearchDelegate failingIndexDelegate
        failingDeleteDelegate none 0 7 "a1"
        { message := "search failed", statusCode := 500 }
        { message := "index failed", statusCode := 503 }
        { message := "delete failed", statusCode := 410 }).2.2 (by decide)⟩⟩

/-! ## Utility: `isValidJson`

Embedding of `isValidJson` from the unnamed utility file.  `JSON.parse`
is external; only its success or failure on the trimmed string matters,
so it is a parameter `jsonParseOk : String → Bool`. -/

/-- The characters removed by JavaScript's `String.prototype.trim`:
the ECMAScript WhiteSpace set (tab, vertical tab, form feed, space,
no-break space, zero-width no-break space, the Unicode space
separators) and the LineTerminator set (LF, CR, LS, PS). -/
def jsIsWhitespaceChar (c : Char) : Bool :=
  c == ' ' || c == '\t' || c == '\n' || c == '\r' ||
  c == '\x0b' || c == '\x0c' || c == '\u00A0' || c == '\uFEFF' ||
  c == '\u1680' || (0x2000 ≤ c.toNat && c.toNat ≤ 0x200A) ||
  c == '\u2028' || c == '\u2029' || c == '\u202F' || c == '\u205F' || c == '\u3000'

/-- JavaScript `value.trim()`: drop leading and trailing JS
whitespace. -/
def jsTrim (value : String) : String :=
  (((value.toList.dropWhile jsIsWhitespaceChar).reverse.dropWhile
      jsIsWhitespaceChar).reverse).asString

/-- `isValidJson` (utility file lines 29–50): empty or length-zero
input is valid; whitespace-only input is valid; otherwise the trimmed
string is parsed only when its first character is a brace or a bracket,
and any other first character makes the result false. -/
def isValidJson (jsonParseOk : String → Bool) (value : String) : Bool :=
  if value.length == 0 then true
  else
    let trimmedValue := jsTrim value
    if trimmedValue.length == 0 then true
    else
      match trimmedValue.toList with
      | c :: _ => if c == '\x7b' || c == '[' then jsonParseOk trimmedValue else false
      | [] => true

/-- The first non-whitespace character of a string (the character
`value.trim()[0]` when it exists). -/
def firstNonWhitespace (value : String) : Option Char :=
  (value.toList.dropWhile jsIsWhitespaceChar).head?

theorem dropWhile_eq_nil_of_all {p : Char → Bool} :
    ∀ (l : List Char), (∀ x, x ∈ l → p x = true) → l.dropWhile p = [] := by
  intro l
  induction l with
  | nil => intro h; rfl
  | cons x xs ih =>
    intro h
    have hx : p x = true := h x (List.mem_cons_self x xs)
    simp only [List.dropWhile, hx]
    exact ih (fun y hy => h y (List.mem_cons_of_mem x hy))

theorem dropWhile_append_singleton {p : Char → Bool} (c : Char) (hc : p c = false) :
    ∀ (xs : List Char), ∃ t, (xs ++ [c]).dropWhile p = t ++ [c] := by
  intro xs
  induction xs with
  | nil =>
    refine ⟨[], ?_⟩
    simp [List.dropWhile, hc]
  | cons x xs ih =>
    cases hx : p x with
    | true =>
      obtain ⟨t, ht⟩ := ih
      refine ⟨t, ?_⟩
      simp only [List.cons_append, List.dropWhile, hx]
      exact ht
    | false =>
      refine ⟨x :: xs, ?_⟩
      simp [List.dropWhile, hx]

theorem dropWhile_eq_cons_head_false {p : Char → Bool} :
    ∀ (l : List Char) (c : Char) (t : List Char),
    l.dropWhile p = c :: t → p c = false := by
  intro l
  induction l with
  | nil => intro c t h; cases h
  | cons x xs ih =>
    intro c t h
    cases hx : p x with
    | true =>
      simp only [List.dropWhile, hx] at h
      exact ih c t h
    | false =>
      simp only [List.dropWhile, hx] at h
      cases h
      exact hx

theorem jsTrim_toList_cons (value : String) (c : Char) (rest : List Char)
    (h : value.toList.dropWhile jsIsWhitespaceChar = c :: rest) :
    ∃ t, (jsTrim value).toList = c :: t := by
  have hc : jsIsWhitespaceChar c = false :=
    dropWhile_eq_cons_head_false _ c rest h
  obtain ⟨t, ht⟩ := dropWhile_append_singleton c hc rest.reverse
  refine ⟨t.reverse, ?_⟩
  show (((value.toList.dropWhile jsIsWhitespaceChar).reverse.dropWhile
      jsIsWhitespaceChar).reverse) = c :: t.reverse
  rw [h]
  have : (c :: rest).reverse = rest.reverse ++ [c] := by simp
  rw [this, ht]
  simp

/-- C9: `isValidJson` is true on every empty or whitespace-only string
(for every parser); it is false on every string whose first
non-whitespace character is neither a brace nor a bracket, again for
every parser — so such strings are never parsed, even when they are
valid JSON; and only when the trimmed string starts with a brace or a
bracket is the parser consulted, on exactly the trimmed string. -/
theorem claim_C9_isValidJson (jsonParseOk : String → Bool) (value : String) :
    (value.toList.all jsIsWhitespaceChar = true →
      isValidJson jsonParseOk value = true) ∧
    (∀ c, firstNonWhitespace value = some c → (c == '\x7b') = false →
      (c == '[') = false → isValidJson jsonParseOk value = false) ∧
    (∀ c, firstNonWhitespace value = some c →
      ((c == '\x7b') = true ∨ (c == '[') = true) →
      isValidJson jsonParseOk value = jsonParseOk (jsTrim value)) := by
  refine ⟨?_, ?_, ?_⟩
  · intro hall
    unfold isValidJson
    cases hlen : (value.length == 0) with
    | true => simp
    | false =>
      simp only [Bool.false_eq_true, if_false]
      have hnil : value.toList.dropWhile jsIsWhitespaceChar = [] :=
        dropWhile_eq_nil_of_all _ (by simpa [List.all_eq_true] using hall)
      have htrim : (jsTrim value).toList = [] := by
        show (((value.toList.dropWhile jsIsWhitespaceChar).reverse.dropWhile
            jsIsWhitespaceChar).reverse) = []
        rw [hnil]
        rfl
      have hlen2 : ((jsTrim value).length == 0) = true := by
        have : (jsTrim value).length = (jsTrim value).toList.length := rfl
        rw [this, htrim]
        rfl
      simp [hlen2]
  · intro c hfirst hbrace hbracket
    obtain ⟨rest, hdrop⟩ :
        ∃ rest, value.toList.dropWhile jsIsWhitespaceChar = c :: rest := by
      unfold firstNonWhitespace at hfirst
      cases hd : value.toList.dropWhile jsIsWhitespaceChar with
      | nil => rw [hd] at hfirst; cases hfirst
      | cons x xs =>
        rw [hd] at hfirst
        cases hfirst
        exact ⟨xs, rfl⟩
    have hvlen : (value.length == 0) = false := by
      cases hv : value.toList with
      | nil => rw [hv] at hdrop; cases hdrop
      | cons x xs =>
        have : value.length = value.toList.length := rfl
        rw [this, hv]
        simp
    obtain ⟨t, htl⟩ := jsTrim_toList_cons value c _ hdrop
    have hlen2 : ((jsTrim value).length == 0) = false := by
      have : (jsTrim value).length = (jsTrim value).toList.length := rfl
      rw [this, htl]
      simp
    have htld : (jsTrim value).data = c :: t := htl
    unfold isValidJson
    rw [hvlen]
    simp [hlen2, htl, htld, hbrace, hbracket]
  · intro c hfirst hbr
    obtain ⟨rest, hdrop⟩ :
        ∃ rest, value.toList.dropWhile jsIsWhitespaceChar = c :: rest := by
      unfold firstNonWhitespace at hfirst
      cases hd : value.toList.dropWhile jsIsWhitespaceChar with
      | nil => rw [hd] at hfirst; cases hfirst
      | cons x xs =>
        rw [hd] at hfirst
        cases hfirst
        exact ⟨xs, rfl⟩
    have hvlen : (value.length == 0) = false := by
      cases hv : value.toList with
      | nil => rw [hv] at hdrop; cases hdrop
      | cons x xs =>
        have : value.length = value.toList.length := rfl
        rw [this, hv]
        simp
    obtain ⟨t, htl⟩ := jsTrim_toList_cons value c _ hdrop
    have hlen2 : ((jsTrim value).length == 0) = false := by
      have : (jsTrim value).length = (jsTrim value).toList.length := rfl
      rw [this, htl]
      simp
    have htld : (jsTrim value).data = c :: t := htl
    unfold isValidJson
    rw [hvlen]
    rcases hbr with hbr | hbr <;> simp [hlen2, htl, htld, hbr]

theorem claim_C9_isValidJson_witness :
    (firstNonWhitespace "  true " = some 't' ∧ ('t' == '\x7b') = false ∧
      ('t' == '[') = false) ∧
    isValidJson (fun _ => true) "  true " = false :=
  ⟨⟨by decide, by decide, by decide⟩,
    (claim_C9_isValidJson (fun _ => true) "  true ").2.1 't'
      (by decide) (by decide) (by decide)⟩

/-! ## Utility: `toAngularJSON`

Embedding of `toAngularJSON` (the inlined `angular.toJson`) and its
`toJsonReplacer`.  JavaScript values are modelled by the inductive
`JSValue` (pure JSON-like data plus `undefined`); `JSON.stringify` with
a replacer and a space argument is modelled by `serializeJSONProperty`,
which follows the ECMAScript serialization algorithm
(`SerializeJSONProperty` / `SerializeJSONObject` /
`SerializeJSONArray`), with a fuel argument for termination —
`JSONStringify` supplies fuel `jsDepth value`, which is always
enough. -/

/-- A JavaScript value as seen by `JSON.stringify`: `undefined`,
`null`, booleans, (integer) numbers, strings, arrays, and objects as
ordered key/value lists. -/
inductive JSValue where
  | undef
  | null
  | bool (b : Bool)
  | num (n : Int)
  | str (s : String)
  | arr (elems : List JSValue)
  | obj (props : List (String × JSValue))
deriving Repr

mutual
/-- Structural equality of `JSValue`s (the model of `===` on the pure
data of this model; for object operands `===` is reference equality,
which implies structural equality). -/
def jsEq : JSValue → JSValue → Bool
  | JSValue.undef, JSValue.undef => true
  | JSValue.null, JSValue.null => true
  | JSValue.bool a, JSValue.bool b => a == b
  | JSValue.num a, JSValue.num b => a == b
  | JSValue.str a, JSValue.str b => a == b
  | JSValue.arr a, JSValue.arr b => jsEqList a b
  | JSValue.obj a, JSValue.obj b => jsEqProps a b
  | _, _ => false
def jsEqList : List JSValue → List JSValue → Bool
  | [], [] => true
  | a :: as, b :: bs => jsEq a b && jsEqList as bs
  | _, _ => false
def jsEqProps : List (String × JSValue) → List (String × JSValue) → Bool
  | [], [] => true
  | a :: as, b :: bs => (a.1 == b.1) && jsEq a.2 b.2 && jsEqProps as bs
  | _, _ => false
end

instance : BEq JSValue := ⟨jsEq⟩

/-- JavaScript truthiness of a value. -/
def jsTruthy : JSValue → Bool
  | JSValue.undef => false
  | JSValue.null => false
  | JSValue.bool b => b
  | JSValue.num n => n != 0
  | JSValue.str s => s != ""
  | JSValue.arr _ => true
  | JSValue.obj _ => true

/-- JavaScript property read `obj.k` on the model: the value at the
key, `undefined` when absent. -/
def getProp (props : List (String × JSValue)) (k : String) : JSValue :=
  match props.find? (fun p => p.1 == k) with
  | some p => p.2
  | none => JSValue.undef

/-- `isWindow(obj)`: `obj && obj.window === obj`.  Only an object can
satisfy it, and only when its `window` property equals the object
itself (which no finite pure value does, matching the fact that no
value of this model is the host `window`). -/
def isWindow (v : JSValue) : Bool :=
  match v with
  | JSValue.obj props => jsTruthy (JSValue.obj props) && (getProp props "window" == v)
  | _ => false

/-- The check `value && window.document === value` compares `value`
against the host environment's `document` object.  No pure JSON-like
value of this model is the host `document`, so the comparison is
constantly false. -/
def isHostDocument (_value : JSValue) : Bool := false

/-- `isScope(obj)`: `obj && obj.$evalAsync && obj.$watch`. -/
def isScope (v : JSValue) : Bool :=
  match v with
  | JSValue.obj props =>
    jsTruthy (JSValue.obj props) && jsTruthy (getProp props "$evalAsync") &&
      jsTruthy (getProp props "$watch")
  | _ => false

/-- `key.charAt(0) === '$' && key.charAt(1) === '$'` (with
`typeof key === 'string'` always true here: `JSON.stringify` passes
string keys); `charAt` out of range yields the empty string, which is
not `'$'`. -/
def isDollarDollarKey (key : String) : Bool :=
  match key.toList with
  | c0 :: c1 :: _ => c0 == '$' && c1 == '$'
  | _ => false

/-- `toJsonReplacer` (utility file lines 91–105): drop properties with
a `'$$'`-prefixed key, replace the window / host document / scope
objects by marker strings, and keep every other value. -/
def toJsonReplacer (key : String) (value : JSValue) : JSValue :=
  if isDollarDollarKey key then JSValue.undef
  else if isWindow value then JSValue.str "$WINDOW"
  else if isHostDocument value then JSValue.str "$DOCUMENT"
  else if isScope value then JSValue.str "$SCOPE"
  else value

/-- The absent replacer of a plain `JSON.stringify(value)`: every
property keeps its value. -/
def keepValueReplacer : String → JSValue → JSValue := fun _ v => v

/-- The ECMAScript `QuoteJSONString` escape of one character. -/
def escapeJSONChar (c : Char) : String :=
  if c == '"' then "\\\""
  else if c == '\\' then "\\\\"
  else if c == '\x08' then "\\b"
  else if c == '\x0c' then "\\f"
  else if c == '\n' then "\\n"
  else if c == '\r' then "\\r"
  else if c == '\t' then "\\t"
  else if c.toNat < 0x20 then
    "\\u00" ++ String.singleton (Nat.digitChar (c.toNat / 16)) ++
      String.singleton (Nat.digitChar (c.toNat % 16))
  else String.singleton c

/-- ECMAScript `QuoteJSONString`. -/
def quoteJSON (s : String) : String :=
  "\"" ++ String.join (s.toList.map escapeJSONChar) ++ "\""

/-- Assembly of a serialized object or array from its member strings:
`obr ++ cbr` when empty, comma-joined when `gap` is empty, and the
newline-and-indent layout of the ECMAScript algorithm otherwise. -/
def wrapJSONParts (obr cbr gap stepback indent2 : String) (parts : List String) : String :=
  if parts.isEmpty then obr ++ cbr
  else if gap == "" then obr ++ String.intercalate "," parts ++ cbr
  else
    obr ++ "\n" ++ indent2 ++ String.intercalate ("," ++ "\n" ++ indent2) parts ++
      "\n" ++ stepback ++ cbr

/-- ECMAScript `SerializeJSONProperty` for the values of this model:
apply the replacer, then serialize by cases; object members whose
serialization is `undefined` are skipped, array elements whose
serialization is `undefined` become `"null"`; array element keys are
the decimal index strings.  The `fuel` argument only bounds the
recursion depth. -/
def serializeJSONProperty (replacer : String → JSValue → JSValue) (gap : String) :
    Nat → String → String → JSValue → Option String
  | 0, _, _, _ => none
  | fuel + 1, indent, key, holderValue =>
    match replacer key holderValue with
    | JSValue.undef => none
    | JSValue.null => some "null"
    | JSValue.bool b => some (cond b "true" "false")
    | JSValue.num n => some (toString n)
    | JSValue.str s => some (quoteJSON s)
    | JSValue.arr elems =>
      let indent2 := indent ++ gap
      let parts := elems.enum.map (fun ie =>
        (serializeJSONProperty replacer gap fuel indent2 (Nat.repr ie.1) ie.2).getD "null")
      some (wrapJSONParts "[" "]" gap indent indent2 parts)
    | JSValue.obj props =>
      let indent2 := indent ++ gap
      let parts := props.filterMap (fun kv =>
        (serializeJSONProperty replacer gap fuel indent2 kv.1 kv.2).map
          (fun strP => quoteJSON kv.1 ++ ":" ++ (if gap == "" then "" else " ") ++ strP))
      some (wrapJSONParts "\x7b" "\x7d" gap indent indent2 parts)

/-- The ECMAScript computation of the `gap` from the `space` argument:
at most 10 spaces for a number, the first 10 characters for a string,
empty otherwise. -/
def gapOfSpace : JSValue → String
  | JSValue.num n => List.asString (List.replicate (min 10 (max n 0).toNat) ' ')
  | JSValue.str s => List.asString (s.toList.take 10)
  | _ => ""

mutual
/-- The nesting depth of a value: enough fuel for
`serializeJSONProperty` under any replacer that never enlarges a
value. -/
def jsDepth : JSValue → Nat
  | JSValue.arr elems => 1 + jsDepthList elems
  | JSValue.obj props => 1 + jsDepthProps props
  | _ => 1
def jsDepthList : List JSValue → Nat
  | [] => 0
  | e :: es => max (jsDepth e) (jsDepthList es)
def jsDepthProps : List (String × JSValue) → Nat
  | [] => 0
  | kv :: ps => max (jsDepth kv.2) (jsDepthProps ps)
end

/-- `JSON.stringify(value, replacer, space)` on the model: serialize
the top value under key `""` with empty indent and sufficient fuel. -/
def JSONStringify (replacer : String → JSValue → JSValue) (space : JSValue)
    (value : JSValue) : Option String :=
  serializeJSONProperty replacer (gapOfSpace space) (jsDepth value) "" "" value

/-- Whether a value is a JS number (`typeof pretty === 'number'`). -/
def isJSNumber : JSValue → Bool
  | JSValue.num _ => true
  | _ => false

/-- `toAngularJSON` (utility file lines 75–81): empty string for
`undefined`, otherwise `JSON.stringify(obj, toJsonReplacer, pretty)`
with a numeric `pretty` first normalized to `2` (truthy) or `null`.
`none` models `JSON.stringify` returning `undefined`. -/
def toAngularJSON (obj : JSValue) (pretty : JSValue) : Option String :=
  if obj == JSValue.undef then some ""
  else
    let pretty2 :=
      if isJSNumber pretty then
        (if jsTruthy pretty then JSValue.num 2 else JSValue.null)
      else pretty
    JSONStringify toJsonReplacer pretty2 obj

mutual
/-- The value with every `'$$'`-keyed property removed (recursively)
and the window / host document / scope replacements applied, exactly as
`toJsonReplacer` would during serialization. -/
def cleanTree (v : JSValue) : JSValue :=
  if isWindow v then JSValue.str "$WINDOW"
  else if isHostDocument v then JSValue.str "$DOCUMENT"
  else if isScope v then JSValue.str "$SCOPE"
  else
    match v with
    | JSValue.arr elems => JSValue.arr (cleanTreeList elems)
    | JSValue.obj props => JSValue.obj (cleanTreeProps props)
    | w => w
def cleanTreeList : List JSValue → List JSValue
  | [] => []
  | e :: es => cleanTree e :: cleanTreeList es
def cleanTreeProps : List (String × JSValue) → List (String × JSValue)
  | [] => []
  | kv :: ps =>
    if isDollarDollarKey kv.1 then cleanTreeProps ps
    else (kv.1, cleanTree kv.2) :: cleanTreeProps ps
end

mutual
/-- No key anywhere in the value starts with `'$$'`. -/
def noDDKeys : JSValue → Bool
  | JSValue.arr elems => noDDKeysList elems
  | JSValue.obj props => noDDKeysProps props
  | _ => true
def noDDKeysList : List JSValue → Bool
  | [] => true
  | e :: es => noDDKeys e && noDDKeysList es
def noDDKeysProps : List (String × JSValue) → Bool
  | [] => true
  | kv :: ps => !(isDollarDollarKey kv.1) && noDDKeys kv.2 && noDDKeysProps ps
end

/-! ### Facts about `cleanTree` and serialization -/

mutual
theorem noDDKeys_cleanTree (v : JSValue) : noDDKeys (cleanTree v) = true := by
  unfold cleanTree
  by_cases hw : isWindow v = true
  · rw [if_pos hw]; rfl
  · rw [if_neg hw, if_neg (by simp [isHostDocument])]
    by_cases hs : isScope v = true
    · rw [if_pos hs]; rfl
    · rw [if_neg hs]
      cases v with
      | arr elems => exact noDDKeysList_cleanTreeList elems
      | obj props => exact noDDKeysProps_cleanTreeProps props
      | undef => rfl
      | null => rfl
      | bool b => rfl
      | num n => rfl
      | str s => rfl
theorem noDDKeysList_cleanTreeList (es : List JSValue) :
    noDDKeysList (cleanTreeList es) = true := by
  cases es with
  | nil => rfl
  | cons e es =>
    show noDDKeysList (cleanTree e :: cleanTreeList es) = true
    simp only [noDDKeysList, Bool.and_eq_true]
    exact ⟨noDDKeys_cleanTree e, noDDKeysList_cleanTreeList es⟩
theorem noDDKeysProps_cleanTreeProps (ps : List (String × JSValue)) :
    noDDKeysProps (cleanTreeProps ps) = true := by
  cases ps with
  | nil => rfl
  | cons kv ps =>
    by_cases hdd : isDollarDollarKey kv.1 = true
    · show noDDKeysProps (if isDollarDollarKey kv.1 then cleanTreeProps ps
        else (kv.1, cleanTree kv.2) :: cleanTreeProps ps) = true
      rw [if_pos hdd]
      exact noDDKeysProps_cleanTreeProps ps
    · show noDDKeysProps (if isDollarDollarKey kv.1 then cleanTreeProps ps
        else (kv.1, cleanTree kv.2) :: cleanTreeProps ps) = true
      rw [if_neg hdd]
      simp only [noDDKeysProps, Bool.and_eq_true]
      refine ⟨⟨?_, noDDKeys_cleanTree kv.2⟩, noDDKeysProps_cleanTreeProps ps⟩
      simp [hdd]
end

theorem one_le_jsDepth (v : JSValue) : 1 ≤ jsDepth v := by
  cases v with
  | arr elems => show 1 ≤ 1 + jsDepthList elems; omega
  | obj props => show 1 ≤ 1 + jsDepthProps props; omega
  | undef => exact le_refl 1
  | null => exact le_refl 1
  | bool b => exact le_refl 1
  | num n => exact le_refl 1
  | str s => exact le_refl 1

mutual
theorem jsDepth_cleanTree_le (v : JSValue) : jsDepth (cleanTree v) ≤ jsDepth v := by
  unfold cleanTree
  by_cases hw : isWindow v = true
  · rw [if_pos hw]; exact one_le_jsDepth v
  · rw [if_neg hw, if_neg (by simp [isHostDocument])]
    by_cases hs : isScope v = true
    · rw [if_pos hs]; exact one_le_jsDepth v
    · rw [if_neg hs]
      cases v with
      | arr elems =>
        show jsDepth (JSValue.arr (cleanTreeList elems)) ≤ jsDepth (JSValue.arr elems)
        have h1 : jsDepth (JSValue.arr (cleanTreeList elems)) =
            1 + jsDepthList (cleanTreeList elems) := rfl
        have h2 : jsDepth (JSValue.arr elems) = 1 + jsDepthList elems := rfl
        have := jsDepthList_cleanTreeList_le elems
        omega
      | obj props =>
        show jsDepth (JSValue.obj (cleanTreeProps props)) ≤ jsDepth (JSValue.obj props)
        have h1 : jsDepth (JSValue.obj (cleanTreeProps props)) =
            1 + jsDepthProps (cleanTreeProps props) := rfl
        have h2 : jsDepth (JSValue.obj props) = 1 + jsDepthProps props := rfl
        have := jsDepthProps_cleanTreeProps_le props
        omega
      | undef => exact le_refl _
      | null => exact le_refl _
      | bool b => exact le_refl _
      | num n => exact le_refl _
      | str s => exact le_refl _
theorem jsDepthList_cleanTreeList_le (es : List JSValue) :
    jsDepthList (cleanTreeList es) ≤ jsDepthList es := by
  cases es with
  | nil => exact le_refl _
  | cons e es =>
    show jsDepthList (cleanTree e :: cleanTreeList es) ≤ jsDepthList (e :: es)
    have h1 : jsDepthList (cleanTree e :: cleanTreeList es) =
        max (jsDepth (cleanTree e)) (jsDepthList (cleanTreeList es)) := rfl
    have h2 : jsDepthList (e :: es) = max (jsDepth e) (jsDepthList es) := rfl
    have h3 := jsDepth_cleanTree_le e
    have h4 := jsDepthList_cleanTreeList_le es
    omega
theorem jsDepthProps_cleanTreeProps_le (ps : List (String × JSValue)) :
    jsDepthProps (cleanTreeProps ps) ≤ jsDepthProps ps := by
  cases ps with
  | nil => exact le_refl _
  | cons kv ps =>
    have h2 : jsDepthProps (kv :: ps) = max (jsDepth kv.2) (jsDepthProps ps) := rfl
    by_cases hdd : isDollarDollarKey kv.1 = true
    · show jsDepthProps (if isDollarDollarKey kv.1 then cleanTreeProps ps
        else (kv.1, cleanTree kv.2) :: cleanTreeProps ps) ≤ jsDepthProps (kv :: ps)
      rw [if_pos hdd]
      have := jsDepthProps_cleanTreeProps_le ps
      omega
    · show jsDepthProps (if isDollarDollarKey kv.1 then cleanTreeProps ps
        else (kv.1, cleanTree kv.2) :: cleanTreeProps ps) ≤ jsDepthProps (kv :: ps)
      rw [if_neg hdd]
      have h1 : jsDepthProps ((kv.1, cleanTree kv.2) :: cleanTreeProps ps) =
          max (jsDepth (cleanTree kv.2)) (jsDepthProps (cleanTreeProps ps)) := rfl
      have h3 := jsDepth_cleanTree_le kv.2
      have h4 := jsDepthProps_cleanTreeProps_le ps
      omega
end

theorem digitChar_mod10_ne_dollar (n : Nat) : Nat.digitChar (n % 10) ≠ '$' := by
  have h : n % 10 < 10 := Nat.mod_lt _ (by decide)
  set m := n % 10 with hm
  interval_cases m <;> decide

theorem toDigitsCore10_ne_dollar :
    ∀ (f n : Nat) (acc : List Char), (∀ c ∈ acc, c ≠ '$') →
    ∀ c ∈ Nat.toDigitsCore 10 f n acc, c ≠ '$' := by
  intro f
  induction f with
  | zero =>
    intro n acc hacc c hc
    simp only [Nat.toDigitsCore] at hc
    exact hacc c hc
  | succ f ih =>
    intro n acc hacc c hc
    simp only [Nat.toDigitsCore] at hc
    by_cases h : n / 10 = 0
    · rw [if_pos h] at hc
      rcases List.mem_cons.1 hc with h1 | h1
      · rw [h1]; exact digitChar_mod10_ne_dollar n
      · exact hacc c h1
    · rw [if_neg h] at hc
      refine ih (n / 10) _ ?_ c hc
      intro d hd
      rcases List.mem_cons.1 hd with h1 | h1
      · rw [h1]; exact digitChar_mod10_ne_dollar n
      · exact hacc d h1

theorem isDollarDollarKey_repr (n : Nat) : isDollarDollarKey (Nat.repr n) = false := by
  have hall : ∀ c ∈ Nat.toDigits 10 n, c ≠ '$' :=
    toDigitsCore10_ne_dollar (n + 1) n [] (by simp)
  unfold isDollarDollarKey
  have hrepr : (Nat.repr n).toList = Nat.toDigits 10 n := rfl
  rw [hrepr]
  cases hd : Nat.toDigits 10 n with
  | nil => rfl
  | cons c0 rest =>
    cases rest with
    | nil => rfl
    | cons c1 rest2 =>
      have hc0 : c0 ≠ '$' := hall c0 (by rw [hd]; exact List.mem_cons_self _ _)
      simp [hc0]

theorem serialize_toJson_ddkey_none (gap : String) (fuel : Nat) (indent key : String)
    (v : JSValue) (h : isDollarDollarKey key = true) :
    serializeJSONProperty toJsonReplacer gap fuel indent key v = none := by
  cases fuel with
  | zero => rfl
  | succ fuel => simp [serializeJSONProperty, toJsonReplacer, h]

theorem serialize_keep_undef_none (gap : String) (fuel : Nat) (indent key : String) :
    serializeJSONProperty keepValueReplacer gap fuel indent key JSValue.undef = none := by
  cases fuel with
  | zero => rfl
  | succ fuel => rfl

theorem cleanTreeList_eq_map (es : List JSValue) : cleanTreeList es = es.map cleanTree := by
  induction es with
  | nil => rfl
  | cons e es ih =>
    show cleanTree e :: cleanTreeList es = cleanTree e :: es.map cleanTree
    rw [ih]

theorem serialize_toJson_eq_keep_clean (gap : String) :
    ∀ (fuel : Nat) (indent key : String) (v : JSValue),
    serializeJSONProperty toJsonReplacer gap fuel indent key v =
      serializeJSONProperty keepValueReplacer gap fuel indent key
        (if isDollarDollarKey key then JSValue.undef else cleanTree v) := by
  intro fuel
  induction fuel with
  | zero => intro indent key v; rfl
  | succ fuel ih =>
    intro indent key v
    by_cases hk : isDollarDollarKey key = true
    · rw [if_pos hk, serialize_toJson_ddkey_none gap _ _ _ _ hk, serialize_keep_undef_none]
    · rw [if_neg hk]
      by_cases hw : isWindow v = true
      · have h1 : toJsonReplacer key v = JSValue.str "$WINDOW" := by
          simp [toJsonReplacer, hk, hw]
        have h2 : cleanTree v = JSValue.str "$WINDOW" := by
          unfold cleanTree
          rw [if_pos hw]
        rw [h2]
        simp [serializeJSONProperty, h1, keepValueReplacer]
      · by_cases hs : isScope v = true
        · have h1 : toJsonReplacer key v = JSValue.str "$SCOPE" := by
            simp [toJsonReplacer, hk, hw, hs, isHostDocument]
          have h2 : cleanTree v = JSValue.str "$SCOPE" := by
            unfold cleanTree
            rw [if_neg hw, if_neg (by simp [isHostDocument]), if_pos hs]
          rw [h2]
          simp [serializeJSONProperty, h1, keepValueReplacer]
        · have h1 : toJsonReplacer key v = v := by
            simp [toJsonReplacer, hk, hw, hs, isHostDocument]
          cases v with
          | undef =>
            rw [show cleanTree JSValue.undef = JSValue.undef from rfl,
              serialize_keep_undef_none]
            simp [serializeJSONProperty, h1]
          | null =>
            rw [show cleanTree JSValue.null = JSValue.null from rfl]
            simp [serializeJSONProperty, h1, keepValueReplacer]
          | bool b =>
            rw [show cleanTree (JSValue.bool b) = JSValue.bool b from rfl]
            simp [serializeJSONProperty, h1, keepValueReplacer]
          | num n =>
            rw [show cleanTree (JSValue.num n) = JSValue.num n from rfl]
            simp [serializeJSONProperty, h1, keepValueReplacer]
          | str s =>
            rw [show cleanTree (JSValue.str s) = JSValue.str s from rfl]
            simp [serializeJSONProperty, h1, keepValueReplacer]
          | arr elems =>
            rw [show cleanTree (JSValue.arr elems) = JSValue.arr (cleanTreeList elems)
              from rfl]
            simp only [serializeJSONProperty, h1, keepValueReplacer]
            congr 1
            congr 1
            rw [cleanTreeList_eq_map, List.enum_map, List.map_map]
            apply List.map_congr_left
            intro ie hie
            simp only [Function.comp_apply, Prod.map_fst, Prod.map_snd, id_eq]
            rw [ih (indent ++ gap) (Nat.repr ie.1) ie.2,
              if_neg (by simp [isDollarDollarKey_repr])]
          | obj props =>
            have h2 : cleanTree (JSValue.obj props) = JSValue.obj (cleanTreeProps props) := by
              unfold cleanTree
              rw [if_neg hw, if_neg (by simp [isHostDocument]), if_neg hs]
            rw [h2]
            simp only [serializeJSONProperty, h1, keepValueReplacer]
            congr 1
            congr 1
            clear h1 h2 hw hs
            induction props with
            | nil => rfl
            | cons kv ps ihp =>
              by_cases hdd : isDollarDollarKey kv.1 = true
              · have hnone : serializeJSONProperty toJsonReplacer gap fuel
                    (indent ++ gap) kv.1 kv.2 = none :=
                  serialize_toJson_ddkey_none gap fuel _ _ _ hdd
                have h3 : cleanTreeProps (kv :: ps) = cleanTreeProps ps := by
                  show (if isDollarDollarKey kv.1 then cleanTreeProps ps
                    else (kv.1, cleanTree kv.2) :: cleanTreeProps ps) = cleanTreeProps ps
                  rw [if_pos hdd]
                rw [h3, List.filterMap_cons, hnone]
                simpa using ihp
              · have h3 : cleanTreeProps (kv :: ps) =
                    (kv.1, cleanTree kv.2) :: cleanTreeProps ps := by
                  show (if isDollarDollarKey kv.1 then cleanTreeProps ps
                    else (kv.1, cleanTree kv.2) :: cleanTreeProps ps) = _
                  rw [if_neg hdd]
                have h4 := ih (indent ++ gap) kv.1 kv.2
                rw [if_neg hdd] at h4
                rw [h3, List.filterMap_cons, List.filterMap_cons]
                simp only [h4]
                rw [ihp]

theorem jsDepth_le_of_mem_list (e : JSValue) :
    ∀ (es : List JSValue), e ∈ es → jsDepth e ≤ jsDepthList es := by
  intro es
  induction es with
  | nil => intro h; cases h
  | cons x xs ih =>
    intro h
    show jsDepth e ≤ max (jsDepth x) (jsDepthList xs)
    rcases List.mem_cons.1 h with h1 | h1
    · rw [h1]; exact le_max_left _ _
    · exact le_trans (ih h1) (le_max_right _ _)

theorem jsDepth_le_of_mem_props (kv : String × JSValue) :
    ∀ (ps : List (String × JSValue)), kv ∈ ps → jsDepth kv.2 ≤ jsDepthProps ps := by
  intro ps
  induction ps with
  | nil => intro h; cases h
  | cons x xs ih =>
    intro h
    show jsDepth kv.2 ≤ max (jsDepth x.2) (jsDepthProps xs)
    rcases List.mem_cons.1 h with h1 | h1
    · rw [h1]; exact le_max_left _ _
    · exact le_trans (ih h1) (le_max_right _ _)

theorem serialize_keep_fuel_stable (gap : String) :
    ∀ (f1 f2 : Nat) (indent key : String) (v : JSValue),
    jsDepth v ≤ f1 → jsDepth v ≤ f2 →
    serializeJSONProperty keepValueReplacer gap f1 indent key v =
      serializeJSONProperty keepValueReplacer gap f2 indent key v := by
  intro f1
  induction f1 with
  | zero =>
    intro f2 indent key v h1 h2
    exact absurd h1 (by have := one_le_jsDepth v; omega)
  | succ f1 ih =>
    intro f2 indent key v h1 h2
    cases f2 with
    | zero => exact absurd h2 (by have := one_le_jsDepth v; omega)
    | succ f2 =>
      cases v with
      | undef => rfl
      | null => rfl
      | bool b => rfl
      | num n => rfl
      | str s => rfl
      | arr elems =>
        have hda : jsDepth (JSValue.arr elems) = 1 + jsDepthList elems := rfl
        simp only [serializeJSONProperty, keepValueReplacer]
        congr 1
        congr 1
        apply List.map_congr_left
        intro ie hie
        have hd : jsDepth ie.2 ≤ jsDepthList elems :=
          jsDepth_le_of_mem_list ie.2 elems (List.snd_mem_of_mem_enum hie)
        rw [ih f2 (indent ++ gap) (Nat.repr ie.1) ie.2 (by omega) (by omega)]
      | obj props =>
        have hda : jsDepth (JSValue.obj props) = 1 + jsDepthProps props := rfl
        simp only [serializeJSONProperty, keepValueReplacer]
        congr 1
        congr 1
        apply List.filterMap_congr
        intro kv hkv
        have hd : jsDepth kv.2 ≤ jsDepthProps props :=
          jsDepth_le_of_mem_props kv props hkv
        rw [ih f2 (indent ++ gap) kv.1 kv.2 (by omega) (by omega)]

theorem jsEq_undef_eq_false (v : JSValue) (h : v ≠ JSValue.undef) :
    (v == JSValue.undef) = false := by
  cases v with
  | undef => exact absurd rfl h
  | null => rfl
  | bool b => rfl
  | num n => rfl
  | str s => rfl
  | arr elems => rfl
  | obj props => rfl

/-! ### Claim C10 (`toAngularJSON`) -/

/-- C10: `toAngularJSON` yields the empty string on `undefined`; on
every other input it yields exactly the plain serialization (same
normalized space argument) of the cleaned value, in which every
`'$$'`-keyed property has been replaced by `undefined` — i.e. omitted —
recursively; and the cleaned value contains no `'$$'`-prefixed key at
all, so none appears in the output. -/
theorem claim_C10_toAngularJSON (v pretty : JSValue) :
    toAngularJSON JSValue.undef pretty = some "" ∧
    noDDKeys (cleanTree v) = true ∧
    (v ≠ JSValue.undef →
      toAngularJSON v pretty =
        JSONStringify keepValueReplacer
          (if isJSNumber pretty then
            (if jsTruthy pretty then JSValue.num 2 else JSValue.null) else pretty)
          (cleanTree v)) := by
  refine ⟨rfl, noDDKeys_cleanTree v, ?_⟩
  intro h
  have hbeq : (v == JSValue.undef) = false := jsEq_undef_eq_false v h
  unfold toAngularJSON
  rw [hbeq]
  simp only [Bool.false_eq_true, if_false]
  unfold JSONStringify
  rw [serialize_toJson_eq_keep_clean]
  rw [if_neg (by decide : ¬ isDollarDollarKey "" = true)]
  exact serialize_keep_fuel_stable _ (jsDepth v) (jsDepth (cleanTree v)) "" "" (cleanTree v)
    (jsDepth_cleanTree_le v) (le_refl _)

/-- A concrete object with one `'$$'`-keyed property, for the C10
witness. -/
def angularFixture : JSValue :=
  JSValue.obj [("$$hashKey", JSValue.num 1), ("a", JSValue.num 2)]

theorem claim_C10_toAngularJSON_witness :
    (angularFixture ≠ JSValue.undef) ∧
    toAngularJSON angularFixture JSValue.undef =
      JSONStringify keepValueReplacer
        (if isJSNumber JSValue.undef then
          (if jsTruthy JSValue.undef then JSValue.num 2 else JSValue.null)
        else JSValue.undef)
        (cleanTree angularFixture) :=
  ⟨fun hc => JSValue.noConfusion hc,
    (claim_C10_toAngularJSON angularFixture JSValue.undef).2.2
      (fun hc => JSValue.noConfusion hc)⟩

/-- Concrete evaluation: the `'$$'`-keyed property is omitted from the
output. -/
theorem toAngularJSON_strips_dd_keys_example :
    toAngularJSON angularFixture JSValue.undef = some "\x7b\"a\":2\x7d" := rfl

/-- Concrete evaluation of the pretty (numeric space) layout: a
numeric `pretty` becomes two-space indentation, arrays render
`undefined` elements as `null`. -/
theorem toAngularJSON_pretty_example :
    toAngularJSON
      (JSValue.obj [("a", JSValue.num 2), ("b", JSValue.arr [JSValue.num 1, JSValue.undef])])
      (JSValue.num 7) =
    some "\x7b\n  \"a\": 2,\n  \"b\": [\n    1,\n    null\n  ]\n\x7d" := rfl

end KibanaExcerpt
